import Mathlib

/-!
Shallow embedding of the claude-code-mcp server: the terminal session manager
(`src/terminal-manager.ts`), the command allowlist (`src/config.ts`), the tool
implementations (`src/tools/execute.ts`, `src/handlers/terminal-handlers.ts`)
and the tool dispatch (`src/server.ts`).

Modelling conventions:
- JS strings are `List Char` (sequences of code units).
- JS `Map` objects are insertion-ordered association lists with `Map.get`
  first-match lookup, `Map.set` in-place replacement / append, `Map.delete`
  removal, mirroring the JavaScript semantics.
- `Date.getTime()` values are integers (milliseconds).
- The asynchronous body of `TerminalManager.executeCommand` is modelled as an
  explicit event sequence: the synchronous prologue, a list of stdout/stderr
  `data` events, and one resolution event (the timeout timer firing first, or
  the child's `exit` event firing first).
-/

namespace ClaudeMcp

/-- JS strings, modelled as lists of characters. -/
abbrev Str := List Char

/-- A JavaScript `Map` with number keys, as an insertion-ordered association list. -/
abbrev JsMap (β : Type) := List (Nat × β)

/-- Map.get: lookup by key (first match; keys are unique in reachable states). -/
def jsGet {β : Type} : JsMap β → Nat → Option β
  | [], _ => none
  | p :: rest, k => if p.1 = k then some p.2 else jsGet rest k

/-- Map.has. -/
def jsHasKey {β : Type} (m : JsMap β) (k : Nat) : Bool :=
  m.any (fun p => p.1 == k)

/-- Map.set: replace the value in place when the key is present (position
preserved), append a new entry otherwise. -/
def jsSet {β : Type} (m : JsMap β) (k : Nat) (v : β) : JsMap β :=
  if jsHasKey m k then m.map (fun p => if p.1 = k then (k, v) else p)
  else m ++ [(k, v)]

/-- Map.delete. -/
def jsDelete {β : Type} (m : JsMap β) (k : Nat) : JsMap β :=
  m.filter (fun p => !(p.1 == k))

theorem jsHasKey_eq_false_iff {β : Type} (m : JsMap β) (k : Nat) :
    jsHasKey m k = false ↔ ∀ p ∈ m, p.1 ≠ k := by
  simp [jsHasKey, List.any_eq_false]

theorem jsGet_eq_none_of_not_hasKey {β : Type} (m : JsMap β) (k : Nat)
    (h : jsHasKey m k = false) : jsGet m k = none := by
  induction m with
  | nil => rfl
  | cons p rest ih =>
    simp only [jsHasKey, List.any_cons, Bool.or_eq_false_iff, beq_eq_false_iff_ne] at h
    simp only [jsGet, if_neg h.1]
    exact ih h.2

theorem jsGet_append_of_none {β : Type} {m : JsMap β} {k : Nat} (l : JsMap β)
    (h : jsGet m k = none) : jsGet (m ++ l) k = jsGet l k := by
  induction m with
  | nil => rfl
  | cons p rest ih =>
    by_cases hp : p.1 = k
    · simp [jsGet, hp] at h
    · simp only [jsGet, if_neg hp] at h
      simp only [List.cons_append, jsGet, if_neg hp]
      exact ih h

theorem jsGet_append_of_some {β : Type} {m : JsMap β} {k : Nat} {v : β} (l : JsMap β)
    (h : jsGet m k = some v) : jsGet (m ++ l) k = some v := by
  induction m with
  | nil => simp [jsGet] at h
  | cons p rest ih =>
    by_cases hp : p.1 = k
    · simp only [jsGet, if_pos hp] at h
      simp only [List.cons_append, jsGet, if_pos hp]
      exact h
    · simp only [jsGet, if_neg hp] at h
      simp only [List.cons_append, jsGet, if_neg hp]
      exact ih h

theorem jsGet_map_replace {β : Type} (m : JsMap β) (k : Nat) (v : β)
    (h : jsHasKey m k = true) :
    jsGet (m.map (fun p => if p.1 = k then (k, v) else p)) k = some v := by
  induction m with
  | nil => simp [jsHasKey] at h
  | cons p rest ih =>
    by_cases hp : p.1 = k
    · simp [jsGet, hp]
    · simp only [List.map_cons, if_neg hp, jsGet]
      apply ih
      simpa [jsHasKey, List.any_cons, hp] using h

theorem jsGet_map_replace_ne {β : Type} (m : JsMap β) (k : Nat) (v : β) (k' : Nat)
    (hne : k' ≠ k) :
    jsGet (m.map (fun p => if p.1 = k then (k, v) else p)) k' = jsGet m k' := by
  induction m with
  | nil => rfl
  | cons p rest ih =>
    by_cases hp : p.1 = k
    · have h1 : ¬ k = k' := fun hh => hne hh.symm
      have h2 : ¬ p.1 = k' := by rw [hp]; exact h1
      simp only [List.map_cons, if_pos hp, jsGet, if_neg h1, if_neg h2]
      exact ih
    · simp only [List.map_cons, if_neg hp, jsGet]
      by_cases hq : p.1 = k'
      · rw [if_pos hq, if_pos hq]
      · rw [if_neg hq, if_neg hq]
        exact ih

theorem jsGet_set_self {β : Type} (m : JsMap β) (k : Nat) (v : β) :
    jsGet (jsSet m k v) k = some v := by
  unfold jsSet
  by_cases h : jsHasKey m k
  · rw [if_pos h]
    exact jsGet_map_replace m k v h
  · rw [if_neg h]
    rw [jsGet_append_of_none _ (jsGet_eq_none_of_not_hasKey m k (Bool.eq_false_iff.mpr h))]
    simp [jsGet]

theorem jsGet_set_ne {β : Type} (m : JsMap β) (k : Nat) (v : β) (k' : Nat)
    (hne : k' ≠ k) : jsGet (jsSet m k v) k' = jsGet m k' := by
  unfold jsSet
  by_cases h : jsHasKey m k
  · rw [if_pos h]
    exact jsGet_map_replace_ne m k v k' hne
  · rw [if_neg h]
    cases hg : jsGet m k' with
    | some w => rw [jsGet_append_of_some _ hg]
    | none =>
      rw [jsGet_append_of_none _ hg]
      simp only [jsGet]
      rw [if_neg (fun hh => hne hh.symm)]

theorem jsGet_delete_self {β : Type} (m : JsMap β) (k : Nat) :
    jsGet (jsDelete m k) k = none := by
  induction m with
  | nil => rfl
  | cons p rest ih =>
    by_cases hp : p.1 = k
    · simpa [jsDelete, List.filter_cons, hp] using ih
    · simpa [jsDelete, List.filter_cons, hp, jsGet] using ih

theorem jsGet_delete_ne {β : Type} (m : JsMap β) (k : Nat) (k' : Nat)
    (hne : k' ≠ k) : jsGet (jsDelete m k) k' = jsGet m k' := by
  induction m with
  | nil => rfl
  | cons p rest ih =>
    by_cases hp : p.1 = k
    · have h2 : ¬ p.1 = k' := by rw [hp]; exact fun hh => hne hh.symm
      have hc : (!(p.1 == k)) = false := by simp [hp]
      simp only [jsDelete, List.filter_cons, hc, Bool.false_eq_true, if_false]
      rw [show jsGet (p :: rest) k' = jsGet rest k' by simp [jsGet, h2]]
      exact ih
    · have hc : (!(p.1 == k)) = true := by simp [hp]
      simp only [jsDelete, List.filter_cons, hc, if_true]
      by_cases hq : p.1 = k'
      · simp [jsGet, hq]
      · simp only [jsGet, if_neg hq]
        exact ih

theorem jsLength_set_le {β : Type} (m : JsMap β) (k : Nat) (v : β) :
    (jsSet m k v).length ≤ m.length + 1 := by
  unfold jsSet
  by_cases h : jsHasKey m k
  · rw [if_pos h, List.length_map]
    omega
  · rw [if_neg h, List.length_append]
    simp

theorem jsLength_delete_lt {β : Type} (m : JsMap β) (k : Nat)
    (h : (jsGet m k).isSome) : (jsDelete m k).length < m.length := by
  induction m with
  | nil => simp [jsGet] at h
  | cons p rest ih =>
    by_cases hp : p.1 = k
    · have hle : (jsDelete rest k).length ≤ rest.length := List.length_filter_le _ _
      have hc : (!(p.1 == k)) = false := by simp [hp]
      simp only [jsDelete, List.filter_cons, hc, Bool.false_eq_true, if_false,
        List.length_cons] at *
      exact Nat.lt_succ_of_le hle
    · simp only [jsGet, if_neg hp] at h
      have hlt := ih h
      have hc : (!(p.1 == k)) = true := by simp [hp]
      simp only [jsDelete, List.filter_cons, hc, if_true, List.length_cons] at *
      exact Nat.succ_lt_succ hlt

theorem jsGet_isSome_eq_hasKey {β : Type} (m : JsMap β) (k : Nat) :
    (jsGet m k).isSome = jsHasKey m k := by
  induction m with
  | nil => rfl
  | cons p rest ih =>
    by_cases hp : p.1 = k
    · simp [jsGet, jsHasKey, hp]
    · have hb : (p.1 == k) = false := by simp [hp]
      simp [jsGet, jsHasKey, hp, hb, ih]

theorem jsMem_of_get_eq_some {β : Type} {m : JsMap β} {k : Nat} {v : β}
    (h : jsGet m k = some v) : (k, v) ∈ m := by
  induction m with
  | nil => simp [jsGet] at h
  | cons p rest ih =>
    by_cases hp : p.1 = k
    · simp only [jsGet, if_pos hp] at h
      obtain ⟨p1, p2⟩ := p
      simp only at hp
      subst hp
      obtain rfl : p2 = v := by injection h
      exact List.mem_cons_self _ _
    · simp only [jsGet, if_neg hp] at h
      exact List.mem_cons_of_mem p (ih h)

theorem jsGet_eq_some_of_mem_nodup {β : Type} {m : JsMap β} {k : Nat} {v : β}
    (hnd : (m.map Prod.fst).Nodup) (h : (k, v) ∈ m) : jsGet m k = some v := by
  induction m with
  | nil => simp at h
  | cons p rest ih =>
    rw [List.map_cons, List.nodup_cons] at hnd
    rcases List.mem_cons.mp h with h1 | h2
    · subst h1
      simp [jsGet]
    · have hp : p.1 ≠ k := by
        intro hk
        exact hnd.1 (hk ▸ List.mem_map.mpr ⟨(k, v), h2, rfl⟩)
      simp only [jsGet, if_neg hp]
      exact ih hnd.2 h2

theorem jsHasKey_of_hasKey_filter {β : Type} (m : JsMap β) (f : Nat × β → Bool) (k : Nat)
    (h : jsHasKey (m.filter f) k = true) : jsHasKey m k = true := by
  simp only [jsHasKey, List.any_eq_true] at *
  rcases h with ⟨p, hp, hk⟩
  exact ⟨p, (List.mem_filter.mp hp).1, hk⟩

theorem jsGet_filter {β : Type} (m : JsMap β) (f : Nat × β → Bool) (k : Nat)
    (hnd : (m.map Prod.fst).Nodup) :
    jsGet (m.filter f) k
      = (jsGet m k).bind (fun v => if f (k, v) then some v else none) := by
  induction m with
  | nil => rfl
  | cons p rest ih =>
    rw [List.map_cons, List.nodup_cons] at hnd
    by_cases hp : p.1 = k
    · have hrest : jsHasKey rest k = false := by
        rw [jsHasKey_eq_false_iff]
        intro q hq hqk
        exact hnd.1 (by rw [← hp, ← hqk] at *; exact List.mem_map.mpr ⟨q, hq, rfl⟩)
      obtain ⟨p1, p2⟩ := p
      simp only at hp
      subst hp
      by_cases hf : f (p1, p2)
      · simp [List.filter_cons, hf, jsGet]
      · have hfilter : jsHasKey (rest.filter f) p1 = false := by
          cases hfk : jsHasKey (rest.filter f) p1 with
          | false => rfl
          | true =>
            rw [jsHasKey_of_hasKey_filter rest f p1 hfk] at hrest
            cases hrest
        have hc : f (p1, p2) = false := Bool.eq_false_iff.mpr hf
        rw [List.filter_cons, hc]
        simp only [Bool.false_eq_true, if_false]
        rw [jsGet_eq_none_of_not_hasKey _ _ hfilter]
        simp [jsGet, hc]
    · by_cases hf : f p
      · rw [List.filter_cons, if_pos hf]
        simp only [jsGet, if_neg hp]
        exact ih hnd.2
      · have hc : f p = false := Bool.eq_false_iff.mpr hf
        rw [List.filter_cons, hc]
        simp only [Bool.false_eq_true, if_false]
        rw [ih hnd.2]
        simp [jsGet, if_neg hp]

/-- Active session record (types.ts `TerminalSession`). The opaque
`process: ChildProcess` handle carries no data relevant to the store and is
omitted. -/
structure TerminalSession where
  pid : Nat
  lastOutput : Str
  isBlocked : Bool
  startTime : Int
deriving DecidableEq

/-- Completed session record (types.ts `CompletedSession`). `exitCode` is
`null` (here `none`) when the child was killed by a signal. -/
structure CompletedSession where
  pid : Nat
  output : Str
  exitCode : Option Int
  startTime : Int
  endTime : Int
deriving DecidableEq

/-- Result of `TerminalManager.executeCommand` (types.ts
`CommandExecutionResult`); `pid` is `-1` on spawn failure, hence an integer. -/
structure CommandExecutionResult where
  pid : Int
  output : Str
  isBlocked : Bool
deriving DecidableEq

/-- The configuration fields of config.ts `getEnvConfig()` that the session
manager reads. -/
structure Config where
  MAX_COMPLETED_SESSIONS : Nat
  MAX_OUTPUT_BUFFER_SIZE : Nat
deriving DecidableEq

/-- The config.ts defaults: `MAX_COMPLETED_SESSIONS = 100`,
`MAX_OUTPUT_BUFFER_SIZE = 1024 * 1024`. -/
def defaultConfig : Config where
  MAX_COMPLETED_SESSIONS := 100
  MAX_OUTPUT_BUFFER_SIZE := 1024 * 1024

/-- The two stores of `TerminalManager`: `sessions` (active) and
`completedSessions`. -/
structure ManagerState where
  sessions : JsMap TerminalSession
  completedSessions : JsMap CompletedSession
deriving DecidableEq

/-- The empty manager state (constructor of `TerminalManager`). -/
def initialManagerState : ManagerState where
  sessions := []
  completedSessions := []

/-- The fixed truncation notice of `TerminalManager.limitBufferSize`. -/
def warningMessage : Str :=
  "\n\n[Output truncated due to size limits. Oldest output has been discarded.]\n\n".data

/-- JS `String.prototype.substring(start)`: a negative start index is clamped
to 0, a start index beyond the length yields the empty string. -/
def jsSubstringFrom (s : Str) (start : Int) : Str :=
  s.drop start.toNat

/-- terminal-manager.ts `limitBufferSize` (lines 45-56): if the buffer exceeds
`maxSize`, keep the warning message followed by the last
`maxSize - warningMessage.length` characters of the buffer. -/
def limitBufferSize (buffer : Str) (maxSize : Nat) : Str :=
  if buffer.length ≤ maxSize then buffer
  else
    warningMessage ++
      jsSubstringFrom buffer
        ((buffer.length : Int) - ((maxSize : Int) - (warningMessage.length : Int)))

/-- `Number.MAX_SAFE_INTEGER`, the initial `oldestTime` of the eviction scan. -/
def maxSafeInteger : Int := 2 ^ 53 - 1

/-- The literal returned by `getNewOutput` for an active session whose buffer
is empty. -/
def noNewOutputMessage : Str := "No new output available".data

/-- Rendering of `exitCode` inside a template literal: a number prints its
decimal form, `null` prints "null". -/
def jsExitCode : Option Int → Str
  | some n => (toString n).data
  | none => "null".data

/-- Round `a / b` (for `b > 0`) to the nearest integer, ties to even — the
IEEE-754 default rounding used when forming a double's significand. -/
def rneDiv (a b : Nat) : Nat :=
  let d := a / b
  let r := a % b
  if b < 2 * r then d + 1
  else if 2 * r < b then d
  else if d % 2 = 0 then d else d + 1

/-- Floor of the base-2 logarithm by fuelled halving (fuel `n` suffices). -/
def log2floorAux : Nat → Nat → Nat
  | 0, _ => 0
  | fuel + 1, n => if 2 ≤ n then log2floorAux fuel (n / 2) + 1 else 0

/-- Floor of the base-2 logarithm (0 at 0). -/
def log2floor (n : Nat) : Nat := log2floorAux n n

/-- The unique E with `2^E ≤ ms/1000 < 2^(E+1)`, for `ms ≥ 1`: the binade of
the runtime in seconds. -/
def msExp (ms : Nat) : Int :=
  if 1000 ≤ ms then (log2floor (ms / 1000) : Int)
  else -(((((List.range 11).find? (fun d => 1000 ≤ ms * 2 ^ d)).getD 10) : Nat) : Int)

/-- The significand q of the binary64 double nearest `ms/1000` (for
`ms ≥ 1`): with `u = E - 52`, the double's exact value is `q·2^u` where
`q = RNE(ms / (1000·2^u))`. -/
def msSignificand (ms : Nat) : Nat :=
  let u : Int := msExp ms - 52
  if 0 ≤ u then rneDiv ms (1000 * 2 ^ u.toNat)
  else rneDiv (ms * 2 ^ (-u).toNat) 1000

/-- Nearest integer to `a / b` (for `b > 0`), ties toward the larger — the
rounding ECMA-262 `toFixed` applies to the double's exact value. -/
def nearestTieUp (a b : Nat) : Nat := (2 * a + b) / (2 * b)

/-- The digit count n of `(ms / 1000).toFixed(1)`: the integer with `n/10`
nearest the exact value of the binary64 double of `ms/1000`, ties to the
larger n, per ECMA-262 Number.prototype.toFixed. -/
def msTenths (ms : Nat) : Nat :=
  if ms = 0 then 0
  else
    let u : Int := msExp ms - 52
    let q := msSignificand ms
    if 0 ≤ u then 10 * q * 2 ^ u.toNat
    else nearestTieUp (10 * q) (2 ^ (-u).toNat)

/-- Rendering of `(ms / 1000).toFixed(1)` for a nonnegative millisecond
count, through the binary64 value of `ms/1000` (so a 150 ms runtime renders
"0.1": the double of 0.15 lies below 0.15). Faithful over toFixed's
fixed-notation range, runtimes below 10^21 seconds. -/
def msToFixed1Nat (ms : Nat) : Str :=
  (toString (msTenths ms / 10)).data ++ ('.' :: (toString (msTenths ms % 10)).data)

/-- Rendering of `(ms / 1000).toFixed(1)` for an integer millisecond count
(`toFixed` formats the absolute value and prepends the sign; the double of a
negated rational is the negated double, rounding being sign-symmetric). -/
def msToFixed1 (ms : Int) : Str :=
  if ms < 0 then '-' :: msToFixed1Nat (-ms).toNat else msToFixed1Nat ms.toNat

/-- The completion block built by `getNewOutput` for a completed session
(terminal-manager.ts line 213). -/
def completedMessage (cs : CompletedSession) : Str :=
  "Process completed with exit code ".data ++ jsExitCode cs.exitCode
    ++ "\nRuntime: ".data ++ msToFixed1 (cs.endTime - cs.startTime)
    ++ "s\nFinal output:\n".data ++ cs.output

/-- terminal-manager.ts `getNewOutput` (lines 197-218). For an active session
it drains `lastOutput` (the empty drain yields the `noNewOutputMessage`
literal, by JS falsiness of the empty string); for a completed session it
returns the completion block; otherwise `null`. Returns the reply together
with the successor state. -/
def getNewOutput (st : ManagerState) (pid : Nat) : Option Str × ManagerState :=
  match jsGet st.sessions pid with
  | some session =>
    let output := session.lastOutput
    let sessions' := jsSet st.sessions pid { session with lastOutput := [] }
    (some (if output = [] then noNewOutputMessage else output),
      { st with sessions := sessions' })
  | none =>
    match jsGet st.completedSessions pid with
    | some cs => (some (completedMessage cs), st)
    | none => (none, st)

/-- The stable spawn-failure result of `executeCommand`
(terminal-manager.ts lines 102-109). -/
def spawnFailResult : CommandExecutionResult where
  pid := -1
  output := "Error: Failed to get process ID. The command could not be executed.".data
  isBlocked := false

/-- Session creation on successful spawn (terminal-manager.ts lines 111-120). -/
def createSession (st : ManagerState) (pid : Nat) (now : Int) : ManagerState :=
  { st with sessions := jsSet st.sessions pid ⟨pid, [], false, now⟩ }

/-- The closure state of one in-flight `executeCommand` promise: the spawned
pid and the local `output` accumulator. -/
structure PendingExec where
  pid : Nat
  output : Str
deriving DecidableEq

/-- A stdout/stderr `data` event (terminal-manager.ts lines 123-137): the text
is appended to the local `output` accumulator, and the session's `lastOutput`
is extended and bounded. The closure mutates the session object, which is the
store's entry whenever the pid is still active; after removal the mutation has
no observable effect on the stores, modelled by the `none` branch. -/
def handleData (cfg : Config) (st : ManagerState) (pe : PendingExec) (text : Str) :
    ManagerState × PendingExec :=
  let st' :=
    match jsGet st.sessions pe.pid with
    | some s =>
      let s' : TerminalSession :=
        { s with lastOutput := limitBufferSize (s.lastOutput ++ text) cfg.MAX_OUTPUT_BUFFER_SIZE }
      { st with sessions := jsSet st.sessions pe.pid s' }
    | none => st
  (st', { pe with output := pe.output ++ text })

/-- The initial-wait timer firing first (terminal-manager.ts lines 139-147):
mark the session blocked and resolve with `isBlocked: true`. -/
def handleTimeout (st : ManagerState) (pe : PendingExec) :
    ManagerState × CommandExecutionResult :=
  let st' :=
    match jsGet st.sessions pe.pid with
    | some s => { st with sessions := jsSet st.sessions pe.pid { s with isBlocked := true } }
    | none => st
  (st', { pid := (pe.pid : Int), output := pe.output, isBlocked := true })

/-- The eviction scan of the exit handler (terminal-manager.ts lines 168-177):
find the completed session with the smallest `endTime`, starting from
`oldestKey = -1`, `oldestTime = Number.MAX_SAFE_INTEGER`. -/
def findOldestLoop : List (Nat × CompletedSession) → Int → Int → Int × Int
  | [], oldestKey, oldestTime => (oldestKey, oldestTime)
  | (pid, s) :: rest, oldestKey, oldestTime =>
    if s.endTime < oldestTime then findOldestLoop rest (pid : Int) s.endTime
    else findOldestLoop rest oldestKey oldestTime

/-- The completed-session record built at exit (terminal-manager.ts lines
156-164): the final output is `output + session.lastOutput`, bounded again.
The `session` object is looked up in the active store, where it lives in every
reachable state at exit time. -/
def finalizeRecord (cfg : Config) (st : ManagerState) (pe : PendingExec)
    (code : Option Int) (now : Int) : CompletedSession :=
  let sessionLastOutput :=
    match jsGet st.sessions pe.pid with
    | some s => s.lastOutput
    | none => []
  let sessionStartTime :=
    match jsGet st.sessions pe.pid with
    | some s => s.startTime
    | none => 0
  { pid := pe.pid
    output := limitBufferSize (pe.output ++ sessionLastOutput) cfg.MAX_OUTPUT_BUFFER_SIZE
    exitCode := code
    startTime := sessionStartTime
    endTime := now }

/-- The child's `exit` event firing first (terminal-manager.ts lines 149-193):
when the pid is truthy, store the completed record, enforce the
`MAX_COMPLETED_SESSIONS` cap by evicting the oldest `endTime`, remove the
active session, and resolve with `isBlocked: false`. -/
def handleExit (cfg : Config) (st : ManagerState) (pe : PendingExec)
    (code : Option Int) (now : Int) : ManagerState × CommandExecutionResult :=
  let st' :=
    if pe.pid ≠ 0 then
      let completed1 := jsSet st.completedSessions pe.pid (finalizeRecord cfg st pe code now)
      let completed2 :=
        if cfg.MAX_COMPLETED_SESSIONS < completed1.length then
          let oldest := findOldestLoop completed1 (-1) maxSafeInteger
          if oldest.1 ≠ -1 then jsDelete completed1 oldest.1.toNat else completed1
        else completed1
      { sessions := jsDelete st.sessions pe.pid, completedSessions := completed2 }
    else st
  (st', { pid := (pe.pid : Int), output := pe.output, isBlocked := false })

/-- The resolution of one `executeCommand` promise: either the initial-wait
timer fires first, or the child exits first (at absolute time `now`). -/
inductive ResolutionEvent where
  | timeout
  | exited (code : Option Int) (now : Int)
deriving DecidableEq

/-- Play a list of `data` events followed by the resolution event. -/
def runPending (cfg : Config) (st : ManagerState) (pe : PendingExec)
    (chunks : List Str) (ev : ResolutionEvent) : ManagerState × CommandExecutionResult :=
  let folded := chunks.foldl (fun acc text => handleData cfg acc.1 acc.2 text) (st, pe)
  match ev with
  | ResolutionEvent.timeout => handleTimeout folded.1 folded.2
  | ResolutionEvent.exited code now => handleExit cfg folded.1 folded.2 code now

/-- terminal-manager.ts `executeCommand` (lines 58-195), as a function of the
spawn outcome (`pidOpt`; `none` models `childProcess.pid` undefined, `some 0`
the other falsy value), the spawn time, the `data` events and the resolution
event. The command string and timeout configure the child process and timer
but do not influence the store transitions, which is what is modelled. -/
def executeCommandRun (cfg : Config) (st : ManagerState) (pidOpt : Option Nat)
    (now : Int) (chunks : List Str) (ev : ResolutionEvent) :
    ManagerState × CommandExecutionResult :=
  match pidOpt with
  | none => (st, spawnFailResult)
  | some pid =>
    if pid = 0 then (st, spawnFailResult)
    else runPending cfg (createSession st pid now) ⟨pid, []⟩ chunks ev

/-- The 24-hour hard cap on active sessions (terminal-manager.ts line 271). -/
def maxActiveSessionAge : Int := 24 * 60 * 60 * 1000

/-- terminal-manager.ts `cleanupOldSessions` (lines 258-279): remove completed
sessions strictly older than `maxAgeMs`, and initiate `forceTerminate` on
active sessions strictly older than 24 hours. `forceTerminate` only signals
the process (the store mutation happens later, at the `exit` event), so the
second component lists the pids signalled and the active store is unchanged. -/
def cleanupOldSessions (st : ManagerState) (now : Int) (maxAgeMs : Int) :
    ManagerState × List Nat :=
  let completed' := st.completedSessions.filter
    (fun p => !(decide (maxAgeMs < now - p.2.endTime)))
  let terminated := (st.sessions.filter
    (fun p => decide (maxActiveSessionAge < now - p.2.startTime))).map Prod.fst
  ({ st with completedSessions := completed' }, terminated)

/-- JS `String.prototype.trim()`: strip leading and trailing whitespace. -/
def trimChars (s : Str) : Str :=
  ((s.dropWhile Char.isWhitespace).reverse.dropWhile Char.isWhitespace).reverse

/-- JS `String.prototype.split(',')`. -/
def splitOnComma : Str → List Str
  | [] => [[]]
  | c :: rest =>
    match splitOnComma rest with
    | [] => [[c]]
    | h :: t => if c = ',' then [] :: h :: t else (c :: h) :: t

/-- config.ts `DEFAULT_ALLOWED_COMMANDS` (lines 24-35). -/
def DEFAULT_ALLOWED_COMMANDS : List Str :=
  ["ls".data, "dir".data, "pwd".data, "echo".data, "date".data, "time".data,
   "cat".data, "head".data, "tail".data, "less".data, "more".data,
   "grep".data, "find".data,
   "git status".data, "git log".data, "git diff".data, "git show".data,
   "git ls-files".data, "git branch".data,
   "node".data, "npm list".data, "npm run".data, "npm test".data, "npm ci".data,
   "ps".data, "top".data, "htop".data, "free".data, "df".data]

/-- config.ts `isCommandAllowed` (lines 38-53), as a function of the
`ALLOW_ALL_COMMANDS` and `ALLOWED_COMMANDS` environment variables: allow
everything when `ALLOW_ALL_COMMANDS === 'true'`; otherwise allow exactly the
commands whose trimmed text starts with an entry of the configured list. -/
def isCommandAllowed (allowAllEnv : Option Str) (allowedEnv : Option Str)
    (command : Str) : Bool :=
  if allowAllEnv = some "true".data then true
  else
    let allowedCommands :=
      match allowedEnv with
      | some s => (splitOnComma s).map trimChars
      | none => DEFAULT_ALLOWED_COMMANDS
    allowedCommands.any (fun cmd => List.isPrefixOf cmd (trimChars command))

/-- A tool reply (`ServerResult`): the single text content item and the
`isError` flag (`false` models an absent flag). -/
structure ToolReply where
  text : Str
  isError : Bool
deriving DecidableEq

/-- The protocol error codes used by the server. -/
inductive ErrorCode where
  | MethodNotFound
  | InvalidParams
  | InternalError
deriving DecidableEq

/-- The JSON-RPC numeric value of each error code. -/
def ErrorCode.toInt : ErrorCode → Int
  | ErrorCode.MethodNotFound => -32601
  | ErrorCode.InvalidParams => -32602
  | ErrorCode.InternalError => -32603

/-- An `McpError` as constructed by the server: a code and the message passed
to the constructor. -/
structure McpError where
  code : ErrorCode
  msg : Str
deriving DecidableEq

/-- The `Error.message` property of an `McpError`: the SDK constructor
prefixes the code, producing "MCP error {code}: {message}". -/
def McpError.jsMessage (e : McpError) : Str :=
  "MCP error ".data ++ (toString e.code.toInt).data ++ ": ".data ++ e.msg

/-- tools/execute.ts `executeCommand` (lines 11-54) on already-valid
arguments: the command is passed straight to the session manager — the source
performs no allowlist check (its lines 20-22 note "For now we'll just execute
anything") — and the reply is either the error reply for `pid = -1` or the
"Command started with PID …" text. -/
def executeCommandToolRun (cfg : Config) (st : ManagerState) (command : Str)
    (pidOpt : Option Nat) (now : Int) (chunks : List Str) (ev : ResolutionEvent) :
    ManagerState × ToolReply :=
  let run := executeCommandRun cfg st pidOpt now chunks ev
  if run.2.pid = -1 then
    (run.1, { text := run.2.output, isError := true })
  else
    (run.1,
      { text := "Command started with PID ".data ++ (toString run.2.pid).data
          ++ "\nInitial output:\n".data ++ run.2.output
          ++ (if run.2.isBlocked then
                "\n\nCommand is still running. Use read_output to get more output.".data
              else []),
        isError := false })

/-- A JSON value, the raw argument object of a tool call. -/
inductive JVal where
  | jnull
  | jbool (b : Bool)
  | jnum (n : Int)
  | jstr (s : Str)
  | jobj (fields : List (Str × JVal))

/-- Field lookup in a JSON object. -/
def fieldLookup : List (Str × JVal) → Str → Option JVal
  | [], _ => none
  | p :: rest, k => if p.1 = k then some p.2 else fieldLookup rest k

/-- Parsed `ExecuteCommandArgsSchema` data (tools/schemas.ts lines 4-9). -/
structure ExecArgs where
  command : Str
  timeout_ms : Option Int
  shell : Option Str
  wait : Bool
deriving DecidableEq

/-- Parsed `ReadOutputArgsSchema` / `ForceTerminateArgsSchema` data
(tools/schemas.ts lines 11-17); both schemas are `{pid: z.number()}`. -/
structure PidArgs where
  pid : Int
deriving DecidableEq

/-- Parsed `ClaudeCodeArgsSchema` data (tools/schemas.ts lines 22-26). -/
structure ClaudeArgs where
  prompt : Str
  workFolder : Option Str
  wait : Bool
deriving DecidableEq

/-- Zod: a required `z.string()` field. -/
def parseReqStr (fs : List (Str × JVal)) (k : Str) : Option Str :=
  match fieldLookup fs k with
  | some (JVal.jstr s) => some s
  | _ => none

/-- Zod: a required `z.number()` field (JS numbers restricted to the integers
actually exchanged here). -/
def parseReqNum (fs : List (Str × JVal)) (k : Str) : Option Int :=
  match fieldLookup fs k with
  | some (JVal.jnum n) => some n
  | _ => none

/-- Zod: an optional `z.string()` field — absent is fine, a present value of
another type fails. -/
def parseOptStr (fs : List (Str × JVal)) (k : Str) : Option (Option Str) :=
  match fieldLookup fs k with
  | none => some none
  | some (JVal.jstr s) => some (some s)
  | some _ => none

/-- Zod: an optional `z.number()` field. -/
def parseOptNum (fs : List (Str × JVal)) (k : Str) : Option (Option Int) :=
  match fieldLookup fs k with
  | none => some none
  | some (JVal.jnum n) => some (some n)
  | some _ => none

/-- Zod: an optional `z.boolean()` field. -/
def parseOptBool (fs : List (Str × JVal)) (k : Str) : Option (Option Bool) :=
  match fieldLookup fs k with
  | none => some none
  | some (JVal.jbool b) => some (some b)
  | some _ => none

/-- `ExecuteCommandArgsSchema.safeParse`: object with required string
`command`, optional number `timeout_ms`, optional string `shell`, optional
boolean `wait` defaulting to `true`; unknown keys are stripped. -/
def parseExecuteCommandArgs : JVal → Option ExecArgs
  | JVal.jobj fs => do
    let c ← parseReqStr fs "command".data
    let t ← parseOptNum fs "timeout_ms".data
    let sh ← parseOptStr fs "shell".data
    let w ← parseOptBool fs "wait".data
    some ⟨c, t, sh, w.getD true⟩
  | _ => none

/-- `ReadOutputArgsSchema.safeParse` and `ForceTerminateArgsSchema.safeParse`:
object with required number `pid`. -/
def parsePidArgs : JVal → Option PidArgs
  | JVal.jobj fs => do
    let p ← parseReqNum fs "pid".data
    some ⟨p⟩
  | _ => none

/-- `ListSessionsArgsSchema.safeParse`: any object validates against
`z.object({})`; non-objects fail. -/
def parseListSessionsArgs : JVal → Option Unit
  | JVal.jobj _ => some ()
  | _ => none

/-- `ClaudeCodeArgsSchema.safeParse`: object with required string `prompt`,
optional string `workFolder`, optional boolean `wait` defaulting to `true`. -/
def parseClaudeCodeArgs : JVal → Option ClaudeArgs
  | JVal.jobj fs => do
    let p ← parseReqStr fs "prompt".data
    let wf ← parseOptStr fs "workFolder".data
    let w ← parseOptBool fs "wait".data
    some ⟨p, wf, w.getD true⟩
  | _ => none

/-- handlers/terminal-handlers.ts `handleExecuteCommand` (lines 20-29): on
schema failure, an ordinary reply with `isError: true`; otherwise the tool
body runs (abstracted as `onValid`). `zerr` is the rendering of the zod
error object interpolated into the text. -/
def handleExecuteCommandParsed (zerr : Str) (args : JVal)
    (onValid : ExecArgs → Except McpError ToolReply) : Except McpError ToolReply :=
  match parseExecuteCommandArgs args with
  | none => Except.ok
      { text := "Error: Invalid arguments for execute_command: ".data ++ zerr,
        isError := true }
  | some a => onValid a

/-- handlers/terminal-handlers.ts `handleReadOutput` (lines 34-43). -/
def handleReadOutputParsed (zerr : Str) (args : JVal)
    (onValid : PidArgs → Except McpError ToolReply) : Except McpError ToolReply :=
  match parsePidArgs args with
  | none => Except.ok
      { text := "Error: Invalid arguments for read_output: ".data ++ zerr,
        isError := true }
  | some a => onValid a

/-- handlers/terminal-handlers.ts `handleForceTerminate` (lines 48-57). -/
def handleForceTerminateParsed (zerr : Str) (args : JVal)
    (onValid : PidArgs → Except McpError ToolReply) : Except McpError ToolReply :=
  match parsePidArgs args with
  | none => Except.ok
      { text := "Error: Invalid arguments for force_terminate: ".data ++ zerr,
        isError := true }
  | some a => onValid a

/-- handlers/terminal-handlers.ts `handleListSessions` (lines 62-71). -/
def handleListSessionsParsed (zerr : Str) (args : JVal)
    (onValid : Unit → Except McpError ToolReply) : Except McpError ToolReply :=
  match parseListSessionsArgs args with
  | none => Except.ok
      { text := "Error: Invalid arguments for list_sessions: ".data ++ zerr,
        isError := true }
  | some a => onValid a

/-- server.ts `handleClaudeCode` (lines 317-322): on schema failure an
`McpError` with `InvalidParams` is thrown (modelled as `Except.error`). -/
def handleClaudeCodeParsed (zerr : Str) (args : JVal)
    (onValid : ClaudeArgs → Except McpError ToolReply) : Except McpError ToolReply :=
  match parseClaudeCodeArgs args with
  | none => Except.error
      { code := ErrorCode.InvalidParams,
        msg := "Invalid arguments for claude_code: ".data ++ zerr }
  | some a => onValid a

/-- server.ts `setupToolHandlers`, CallToolRequest handler (lines 274-311):
dispatch by tool name inside a try/catch. The default branch throws an
`McpError` with `MethodNotFound`; the catch-all rewraps every thrown error
as `InternalError` with message "Tool execution failed: " followed by the
caught error's `message` property. -/
def handleCallTool
    (claudeCode execCmd readOut forceTerm listSess : Except McpError ToolReply)
    (toolName : Str) : Except McpError ToolReply :=
  let inner : Except McpError ToolReply :=
    if toolName = "claude_code".data then claudeCode
    else if toolName = "execute_command".data then execCmd
    else if toolName = "read_output".data then readOut
    else if toolName = "force_terminate".data then forceTerm
    else if toolName = "list_sessions".data then listSess
    else Except.error
      { code := ErrorCode.MethodNotFound,
        msg := "Tool ".data ++ toolName ++ " not found".data }
  match inner with
  | Except.ok r => Except.ok r
  | Except.error e => Except.error
      { code := ErrorCode.InternalError,
        msg := "Tool execution failed: ".data ++ e.jsMessage }

/-- The full dispatch with each tool's schema-validation gate in place and the
tool bodies abstracted. -/
def callToolWithValidation (zerrCC zerrEx zerrRd zerrFt zerrLs : Str) (args : JVal)
    (onCC : ClaudeArgs → Except McpError ToolReply)
    (onEx : ExecArgs → Except McpError ToolReply)
    (onRd : PidArgs → Except McpError ToolReply)
    (onFt : PidArgs → Except McpError ToolReply)
    (onLs : Unit → Except McpError ToolReply)
    (toolName : Str) : Except McpError ToolReply :=
  handleCallTool
    (handleClaudeCodeParsed zerrCC args onCC)
    (handleExecuteCommandParsed zerrEx args onEx)
    (handleReadOutputParsed zerrRd args onRd)
    (handleForceTerminateParsed zerrFt args onFt)
    (handleListSessionsParsed zerrLs args onLs)
    toolName

/-- A trivially successful tool outcome, used to instantiate abstracted tool
bodies at concrete inputs. -/
def okEmptyReply : Except McpError ToolReply := Except.ok ⟨[], false⟩

/-- The completion block always starts with the nonempty literal
"Process completed with exit code ", so it is never the empty string. -/
theorem completedMessage_ne_nil (cs : CompletedSession) : completedMessage cs ≠ [] := by
  intro h
  have hl := congrArg List.length h
  simp only [completedMessage, List.length_append, List.length_nil] at hl
  have hp : ("Process completed with exit code ".data).length = 33 := by decide
  rw [hp] at hl
  omega

/-- C5: for every string buffer and every `maxSize` at least as large as the
truncation notice, `limitBufferSize` returns a buffer of length at most
`maxSize` unchanged, and replaces a longer buffer by the fixed notice followed
by exactly the last `maxSize - warningMessage.length` characters, so the
result's length never exceeds `maxSize`. -/
theorem limitBufferSize_spec (buffer : Str) (maxSize : Nat)
    (hmax : warningMessage.length ≤ maxSize) :
    (buffer.length ≤ maxSize → limitBufferSize buffer maxSize = buffer) ∧
    (maxSize < buffer.length →
      limitBufferSize buffer maxSize
        = warningMessage
            ++ buffer.drop (buffer.length - (maxSize - warningMessage.length)) ∧
      (buffer.drop (buffer.length - (maxSize - warningMessage.length))).length
        = maxSize - warningMessage.length) ∧
    (limitBufferSize buffer maxSize).length ≤ maxSize := by
  refine ⟨?_, ?_, ?_⟩
  · intro h
    simp [limitBufferSize, h]
  · intro h
    constructor
    · simp only [limitBufferSize, if_neg (by omega : ¬ buffer.length ≤ maxSize)]
      unfold jsSubstringFrom
      congr 2
      omega
    · rw [List.length_drop]
      omega
  · by_cases h : buffer.length ≤ maxSize
    · simp [limitBufferSize, h]
    · simp only [limitBufferSize, if_neg h, List.length_append]
      unfold jsSubstringFrom
      rw [List.length_drop]
      have heq : ((buffer.length : Int)
            - ((maxSize : Int) - (warningMessage.length : Int))).toNat
          = buffer.length - (maxSize - warningMessage.length) := by omega
      rw [heq]
      omega

/-- Witness for `limitBufferSize_spec` at a 120-character buffer and a
100-character cap. -/
theorem limitBufferSize_spec_witness :
    warningMessage.length ≤ 100 ∧
    (limitBufferSize (List.replicate 120 'a') 100).length ≤ 100 :=
  ⟨by decide, (limitBufferSize_spec (List.replicate 120 'a') 100 (by decide)).2.2⟩

/-- C9: reading an active session drains its buffer (the stored session's
`lastOutput` becomes empty) and returns the prior contents, with the literal
'No new output available' replacing an empty drain; a second consecutive read
returns the literal. -/
theorem getNewOutput_drain_spec (st : ManagerState) (pid : Nat) (s : TerminalSession)
    (h : jsGet st.sessions pid = some s) :
    (getNewOutput st pid).1
      = some (if s.lastOutput = [] then noNewOutputMessage else s.lastOutput) ∧
    jsGet (getNewOutput st pid).2.sessions pid = some ({ s with lastOutput := [] }) ∧
    (getNewOutput (getNewOutput st pid).2 pid).1 = some noNewOutputMessage := by
  have h2 : jsGet (jsSet st.sessions pid ({ s with lastOutput := [] })) pid
      = some ({ s with lastOutput := [] }) := jsGet_set_self _ _ _
  refine ⟨?_, ?_, ?_⟩
  · simp [getNewOutput, h]
  · simp [getNewOutput, h, h2]
  · simp [getNewOutput, h, h2]

/-- Witness for `getNewOutput_drain_spec` on a one-session store. -/
theorem getNewOutput_drain_spec_witness :
    jsGet ((⟨[(3, ⟨3, "out".data, false, 0⟩)], []⟩ : ManagerState)).sessions 3
      = some ⟨3, "out".data, false, 0⟩ ∧
    (getNewOutput (⟨[(3, ⟨3, "out".data, false, 0⟩)], []⟩ : ManagerState) 3).1
      = some (if ("out".data : Str) = [] then noNewOutputMessage else "out".data) :=
  ⟨by decide,
    (getNewOutput_drain_spec ⟨[(3, ⟨3, "out".data, false, 0⟩)], []⟩ 3
      ⟨3, "out".data, false, 0⟩ (by decide)).1⟩

/-- C10: `getNewOutput` never returns the empty string — the reply is `null`
or a non-empty string (drained output, the placeholder literal, or the
completion block). -/
theorem getNewOutput_never_empty (st : ManagerState) (pid : Nat) :
    (getNewOutput st pid).1 ≠ some [] := by
  unfold getNewOutput
  cases hs : jsGet st.sessions pid with
  | some s =>
    by_cases he : s.lastOutput = []
    · simp only [he, if_pos rfl]
      intro hcontra
      have : noNewOutputMessage = [] := by injection hcontra
      exact absurd this (by decide)
    · simp only [if_neg he]
      intro hcontra
      exact he (by injection hcontra)
  | none =>
    cases hc : jsGet st.completedSessions pid with
    | some cs =>
      intro hcontra
      exact completedMessage_ne_nil cs (by injection hcontra)
    | none => simp

/-- C6: for a pid naming a completed session with a numeric exit code, the
reply is exactly the block
"Process completed with exit code N\nRuntime: Ss\nFinal output:\n" followed by
the stored bounded output, where S is the runtime in seconds to one decimal
place — rendered, as `toFixed(1)` does, from the binary64 double of
runtime/1000, within toFixed's fixed-notation range; the stores are
unchanged. -/
theorem getNewOutput_completed_format (st : ManagerState) (pid : Nat)
    (cs : CompletedSession) (n : Int)
    (hact : jsGet st.sessions pid = none)
    (hcomp : jsGet st.completedSessions pid = some cs)
    (hcode : cs.exitCode = some n)
    (hrange : (cs.endTime - cs.startTime).natAbs < 10 ^ 24) :
    (getNewOutput st pid).1
      = some ("Process completed with exit code ".data ++ (toString n).data
          ++ "\nRuntime: ".data ++ msToFixed1 (cs.endTime - cs.startTime)
          ++ "s\nFinal output:\n".data ++ cs.output) ∧
    (getNewOutput st pid).2 = st := by
  unfold getNewOutput
  rw [hact, hcomp]
  simp [completedMessage, jsExitCode, hcode]

/-- Witness for `getNewOutput_completed_format`: a session that ran 1234 ms
and exited 0 renders "Runtime: 1.2s". -/
theorem getNewOutput_completed_format_witness :
    (((1234 : Int) - 0).natAbs < 10 ^ 24) ∧
    jsGet ((⟨[], [(7, ⟨7, "hi".data, some 0, 0, 1234⟩)]⟩ : ManagerState)).sessions 7
      = none ∧
    (getNewOutput (⟨[], [(7, ⟨7, "hi".data, some 0, 0, 1234⟩)]⟩ : ManagerState) 7).1
      = some ("Process completed with exit code ".data ++ (toString (0 : Int)).data
          ++ "\nRuntime: ".data ++ msToFixed1 ((1234 : Int) - 0)
          ++ "s\nFinal output:\n".data ++ "hi".data) :=
  ⟨by decide, by decide,
    (getNewOutput_completed_format ⟨[], [(7, ⟨7, "hi".data, some 0, 0, 1234⟩)]⟩ 7
      ⟨7, "hi".data, some 0, 0, 1234⟩ 0 (by decide) (by decide) (by decide) (by decide)).1⟩

/-- C8: the sweep removes a completed session exactly when `now - endTime`
strictly exceeds `maxAgeMs`; the active store itself is untouched; and
`forceTerminate` is initiated exactly on the active sessions whose
`now - startTime` strictly exceeds 24 hours. -/
theorem cleanupOldSessions_spec (st : ManagerState) (now maxAgeMs : Int)
    (pid : Nat) (cs : CompletedSession)
    (hndC : (st.completedSessions.map Prod.fst).Nodup)
    (hndA : (st.sessions.map Prod.fst).Nodup) :
    (jsGet (cleanupOldSessions st now maxAgeMs).1.completedSessions pid = some cs ↔
      jsGet st.completedSessions pid = some cs ∧ now - cs.endTime ≤ maxAgeMs) ∧
    (cleanupOldSessions st now maxAgeMs).1.sessions = st.sessions ∧
    (pid ∈ (cleanupOldSessions st now maxAgeMs).2 ↔
      ∃ s, jsGet st.sessions pid = some s
        ∧ maxActiveSessionAge < now - s.startTime) := by
  refine ⟨?_, rfl, ?_⟩
  · have hfil := jsGet_filter st.completedSessions
      (fun p => !(decide (maxAgeMs < now - p.2.endTime))) pid hndC
    show jsGet (st.completedSessions.filter _) pid = some cs ↔ _
    rw [hfil]
    cases hg : jsGet st.completedSessions pid with
    | none => simp
    | some v =>
      simp only [Option.bind]
      split_ifs with hcond
      · have hage : ¬ maxAgeMs < now - v.endTime := by simpa using hcond
        constructor
        · intro heq
          obtain rfl : v = cs := by injection heq
          exact ⟨rfl, by omega⟩
        · rintro ⟨heq, _⟩
          obtain rfl : v = cs := by injection heq
          rfl
      · have hage : maxAgeMs < now - v.endTime := by
          have := by simpa using hcond
          omega
        constructor
        · intro h
          simp at h
        · rintro ⟨heq, hle⟩
          obtain rfl : v = cs := by injection heq
          omega
  · show pid ∈ (st.sessions.filter _).map Prod.fst ↔ _
    simp only [List.mem_map, List.mem_filter]
    constructor
    · rintro ⟨p, ⟨hmem, hf⟩, hfst⟩
      obtain ⟨p1, p2⟩ := p
      simp only at hfst
      subst hfst
      refine ⟨p2, jsGet_eq_some_of_mem_nodup hndA hmem, by simpa using hf⟩
    · rintro ⟨s, hget, hage⟩
      exact ⟨(pid, s), ⟨jsMem_of_get_eq_some hget, by simpa using hage⟩, rfl⟩

/-- Witness for `cleanupOldSessions_spec`: a two-hour-old completed session
against a one-hour TTL. -/
theorem cleanupOldSessions_spec_witness :
    ((([(2, (⟨2, [], some 0, 0, 0⟩ : CompletedSession))] : JsMap CompletedSession).map
        Prod.fst).Nodup) ∧
    (jsGet (cleanupOldSessions
          (⟨[], [(2, ⟨2, [], some 0, 0, 0⟩)]⟩ : ManagerState) 7200000 3600000).1.completedSessions 2
        = some ⟨2, [], some 0, 0, 0⟩ ↔
      jsGet (⟨[], [(2, ⟨2, [], some 0, 0, 0⟩)]⟩ : ManagerState).completedSessions 2
          = some ⟨2, [], some 0, 0, 0⟩
        ∧ (7200000 : Int) - (⟨2, [], some 0, 0, 0⟩ : CompletedSession).endTime ≤ 3600000) :=
  ⟨by decide,
    (cleanupOldSessions_spec ⟨[], [(2, ⟨2, [], some 0, 0, 0⟩)]⟩ 7200000 3600000 2
      ⟨2, [], some 0, 0, 0⟩ (by decide) (by decide)).1⟩

/-- C1 (code bug): the intended allowlist denies "rm -rf /" under the default
configuration, yet the shipped `executeCommand` tool never consults
`isCommandAllowed`: it runs the command anyway, the reply is not an error, and
a session is created. -/
theorem executeCommand_tool_runs_disallowed_command :
    isCommandAllowed none none "rm -rf /".data = false ∧
    (executeCommandToolRun defaultConfig initialManagerState "rm -rf /".data
        (some 5) 0 [] ResolutionEvent.timeout).2.isError = false ∧
    (jsGet (executeCommandToolRun defaultConfig initialManagerState "rm -rf /".data
        (some 5) 0 [] ResolutionEvent.timeout).1.sessions 5).isSome = true := by
  refine ⟨by decide, by decide, by decide⟩

/-- C2 counterexample: a `tools/call` for the unknown tool "nope" does not
surface `MethodNotFound` — the dispatcher's catch-all rewraps the thrown
error as `InternalError`. -/
theorem unknownTool_reply_internalError_cex :
    handleCallTool okEmptyReply okEmptyReply okEmptyReply okEmptyReply okEmptyReply
        "nope".data
      = Except.error
          { code := ErrorCode.InternalError,
            msg := "Tool execution failed: MCP error -32601: Tool nope not found".data } ∧
    ErrorCode.InternalError ≠ ErrorCode.MethodNotFound := by
  exact ⟨rfl, by decide⟩

/-- C2 amended: for every tool name other than the five registered ones, the
reply is a protocol error with code `InternalError` whose message wraps the
`MethodNotFound` error's message "Tool <name> not found". -/
theorem unknownTool_wrapped_internalError
    (h1 h2 h3 h4 h5 : Except McpError ToolReply) (name : Str)
    (n1 : name ≠ "claude_code".data) (n2 : name ≠ "execute_command".data)
    (n3 : name ≠ "read_output".data) (n4 : name ≠ "force_terminate".data)
    (n5 : name ≠ "list_sessions".data) :
    handleCallTool h1 h2 h3 h4 h5 name
      = Except.error
          { code := ErrorCode.InternalError,
            msg := "Tool execution failed: ".data
              ++ McpError.jsMessage
                  { code := ErrorCode.MethodNotFound,
                    msg := "Tool ".data ++ name ++ " not found".data } } := by
  simp only [handleCallTool, if_neg n1, if_neg n2, if_neg n3, if_neg n4, if_neg n5]

/-- Witness for `unknownTool_wrapped_internalError` at name "nope". -/
theorem unknownTool_wrapped_internalError_witness :
    ("nope".data ≠ "claude_code".data) ∧
    handleCallTool okEmptyReply okEmptyReply okEmptyReply okEmptyReply okEmptyReply
        "nope".data
      = Except.error
          { code := ErrorCode.InternalError,
            msg := "Tool execution failed: ".data
              ++ McpError.jsMessage
                  { code := ErrorCode.MethodNotFound,
                    msg := "Tool ".data ++ "nope".data ++ " not found".data } } :=
  ⟨by decide,
    unknownTool_wrapped_internalError okEmptyReply okEmptyReply okEmptyReply okEmptyReply
      okEmptyReply "nope".data (by decide) (by decide) (by decide) (by decide) (by decide)⟩

/-- C4 counterexample: on invalid arguments (here `null`), `execute_command`
replies with an ordinary `{isError: true}` content reply — not a protocol
error with `InvalidParams` — and `claude_code`'s thrown `InvalidParams` is
rewrapped by the dispatcher as `InternalError`. -/
theorem validation_failure_not_invalidParams_cex :
    callToolWithValidation [] [] [] [] [] JVal.jnull
        (fun _ => okEmptyReply) (fun _ => okEmptyReply) (fun _ => okEmptyReply)
        (fun _ => okEmptyReply) (fun _ => okEmptyReply) "execute_command".data
      = Except.ok
          { text := "Error: Invalid arguments for execute_command: ".data,
            isError := true } ∧
    callToolWithValidation [] [] [] [] [] JVal.jnull
        (fun _ => okEmptyReply) (fun _ => okEmptyReply) (fun _ => okEmptyReply)
        (fun _ => okEmptyReply) (fun _ => okEmptyReply) "claude_code".data
      = Except.error
          { code := ErrorCode.InternalError,
            msg := "Tool execution failed: MCP error -32602: Invalid arguments for claude_code: ".data } := by
  exact ⟨rfl, rfl⟩

/-- C4 amended: when the supplied arguments fail a tool's schema, the tool
body is not invoked; the four terminal tools reply with an ordinary
`{isError: true}` text "Error: Invalid arguments for <tool>: …", while
`claude_code` throws `InvalidParams`, which the dispatcher's catch-all
surfaces as `InternalError` wrapping that message. -/
theorem validation_failure_replies
    (zerrCC zerrEx zerrRd zerrFt zerrLs : Str) (args : JVal)
    (onCC : ClaudeArgs → Except McpError ToolReply)
    (onEx : ExecArgs → Except McpError ToolReply)
    (onRd : PidArgs → Except McpError ToolReply)
    (onFt : PidArgs → Except McpError ToolReply)
    (onLs : Unit → Except McpError ToolReply) :
    (parseExecuteCommandArgs args = none →
      callToolWithValidation zerrCC zerrEx zerrRd zerrFt zerrLs args
          onCC onEx onRd onFt onLs "execute_command".data
        = Except.ok
            { text := "Error: Invalid arguments for execute_command: ".data ++ zerrEx,
              isError := true }) ∧
    (parsePidArgs args = none →
      callToolWithValidation zerrCC zerrEx zerrRd zerrFt zerrLs args
          onCC onEx onRd onFt onLs "read_output".data
        = Except.ok
            { text := "Error: Invalid arguments for read_output: ".data ++ zerrRd,
              isError := true } ∧
      callToolWithValidation zerrCC zerrEx zerrRd zerrFt zerrLs args
          onCC onEx onRd onFt onLs "force_terminate".data
        = Except.ok
            { text := "Error: Invalid arguments for force_terminate: ".data ++ zerrFt,
              isError := true }) ∧
    (parseListSessionsArgs args = none →
      callToolWithValidation zerrCC zerrEx zerrRd zerrFt zerrLs args
          onCC onEx onRd onFt onLs "list_sessions".data
        = Except.ok
            { text := "Error: Invalid arguments for list_sessions: ".data ++ zerrLs,
              isError := true }) ∧
    (parseClaudeCodeArgs args = none →
      callToolWithValidation zerrCC zerrEx zerrRd zerrFt zerrLs args
          onCC onEx onRd onFt onLs "claude_code".data
        = Except.error
            { code := ErrorCode.InternalError,
              msg := "Tool execution failed: ".data
                ++ McpError.jsMessage
                    { code := ErrorCode.InvalidParams,
                      msg := "Invalid arguments for claude_code: ".data ++ zerrCC } }) := by
  refine ⟨fun hEx => ?_, fun hRd => ⟨?_, ?_⟩, fun hLs => ?_, fun hCC => ?_⟩
  · simp [callToolWithValidation, handleCallTool, handleExecuteCommandParsed, hEx]
  · simp [callToolWithValidation, handleCallTool, handleReadOutputParsed, hRd]
  · simp [callToolWithValidation, handleCallTool, handleForceTerminateParsed, hRd]
  · simp [callToolWithValidation, handleCallTool, handleListSessionsParsed, hLs]
  · simp [callToolWithValidation, handleCallTool, handleClaudeCodeParsed, hCC]

/-- Witness for `validation_failure_replies` twice over: at the empty object
(which satisfies `list_sessions`' schema but fails `execute_command`'s
required `command` field) and at `null` (which fails `list_sessions`' too). -/
theorem validation_failure_replies_witness :
    parseExecuteCommandArgs (JVal.jobj []) = none ∧
    callToolWithValidation [] [] [] [] [] (JVal.jobj [])
        (fun _ => okEmptyReply) (fun _ => okEmptyReply) (fun _ => okEmptyReply)
        (fun _ => okEmptyReply) (fun _ => okEmptyReply) "execute_command".data
      = Except.ok
          { text := "Error: Invalid arguments for execute_command: ".data ++ ([] : Str),
            isError := true } ∧
    parseListSessionsArgs JVal.jnull = none ∧
    callToolWithValidation [] [] [] [] [] JVal.jnull
        (fun _ => okEmptyReply) (fun _ => okEmptyReply) (fun _ => okEmptyReply)
        (fun _ => okEmptyReply) (fun _ => okEmptyReply) "list_sessions".data
      = Except.ok
          { text := "Error: Invalid arguments for list_sessions: ".data ++ ([] : Str),
            isError := true } :=
  ⟨rfl,
    (validation_failure_replies [] [] [] [] [] (JVal.jobj [])
      (fun _ => okEmptyReply) (fun _ => okEmptyReply) (fun _ => okEmptyReply)
      (fun _ => okEmptyReply) (fun _ => okEmptyReply)).1 rfl,
    rfl,
    (validation_failure_replies [] [] [] [] [] JVal.jnull
      (fun _ => okEmptyReply) (fun _ => okEmptyReply) (fun _ => okEmptyReply)
      (fun _ => okEmptyReply) (fun _ => okEmptyReply)).2.2.1 rfl⟩

theorem jsHasKey_of_mem {β : Type} {m : JsMap β} {k : Nat} {v : β}
    (h : (k, v) ∈ m) : jsHasKey m k = true := by
  simp only [jsHasKey, List.any_eq_true]
  exact ⟨(k, v), h, by simp⟩

theorem jsMem_set {β : Type} {m : JsMap β} {k : Nat} {v : β} {r : Nat × β}
    (h : r ∈ jsSet m k v) : r ∈ m ∨ r = (k, v) := by
  unfold jsSet at h
  by_cases hk : jsHasKey m k
  · rw [if_pos hk] at h
    rcases List.mem_map.mp h with ⟨q, hq, heq⟩
    by_cases hq1 : q.1 = k
    · right
      rw [← heq, if_pos hq1]
    · left
      rw [← heq, if_neg hq1]
      exact hq
  · rw [if_neg hk] at h
    rcases List.mem_append.mp h with h1 | h2
    · left; exact h1
    · right; simpa using h2

theorem jsSet_eq_append {β : Type} (m : JsMap β) (k : Nat) (v : β)
    (h : jsHasKey m k = false) : jsSet m k v = m ++ [(k, v)] := by
  simp [jsSet, h]

theorem findOldestLoop_time_le (l : List (Nat × CompletedSession)) (k0 t0 : Int) :
    (findOldestLoop l k0 t0).2 ≤ t0
      ∧ ∀ q ∈ l, (findOldestLoop l k0 t0).2 ≤ q.2.endTime := by
  induction l generalizing k0 t0 with
  | nil => exact ⟨le_refl t0, by simp⟩
  | cons p rest ih =>
    obtain ⟨p1, p2⟩ := p
    by_cases h : p2.endTime < t0
    · have hrec := ih (p1 : Int) p2.endTime
      refine ⟨?_, ?_⟩
      · simp only [findOldestLoop, if_pos h]
        exact le_trans hrec.1 (le_of_lt h)
      · intro q hq
        rcases List.mem_cons.mp hq with rfl | hq2
        · simpa [findOldestLoop, h] using hrec.1
        · simpa [findOldestLoop, h] using hrec.2 q hq2
    · have hrec := ih k0 t0
      refine ⟨?_, ?_⟩
      · simpa [findOldestLoop, h] using hrec.1
      · intro q hq
        rcases List.mem_cons.mp hq with rfl | hq2
        · have h1 : (findOldestLoop rest k0 t0).2 ≤ t0 := hrec.1
          simp only [findOldestLoop, if_neg h]
          omega
        · simpa [findOldestLoop, h] using hrec.2 q hq2

theorem findOldestLoop_mem (l : List (Nat × CompletedSession)) (k0 t0 : Int) :
    findOldestLoop l k0 t0 = (k0, t0) ∨
    ∃ q ∈ l, findOldestLoop l k0 t0 = ((q.1 : Int), q.2.endTime) := by
  induction l generalizing k0 t0 with
  | nil => left; rfl
  | cons p rest ih =>
    obtain ⟨p1, p2⟩ := p
    by_cases h : p2.endTime < t0
    · right
      rcases ih (p1 : Int) p2.endTime with heq | ⟨q, hq, heq⟩
      · exact ⟨(p1, p2), List.mem_cons_self _ _, by simpa [findOldestLoop, h] using heq⟩
      · exact ⟨q, List.mem_cons_of_mem _ hq, by simpa [findOldestLoop, h] using heq⟩
    · rcases ih k0 t0 with heq | ⟨q, hq, heq⟩
      · left
        simpa [findOldestLoop, h] using heq
      · right
        exact ⟨q, List.mem_cons_of_mem _ hq, by simpa [findOldestLoop, h] using heq⟩

theorem findOldestLoop_append (l1 l2 : List (Nat × CompletedSession)) (k0 t0 : Int) :
    findOldestLoop (l1 ++ l2) k0 t0
      = findOldestLoop l2 (findOldestLoop l1 k0 t0).1 (findOldestLoop l1 k0 t0).2 := by
  induction l1 generalizing k0 t0 with
  | nil => rfl
  | cons p rest ih =>
    obtain ⟨p1, p2⟩ := p
    by_cases h : p2.endTime < t0
    · simp [findOldestLoop, h, ih]
    · simp [findOldestLoop, h, ih]

/-- When some entry beats the initial accumulator, the eviction scan returns
an entry of the list of minimal `endTime`. -/
theorem findOldest_min (l : List (Nat × CompletedSession))
    (hex : ∃ q ∈ l, q.2.endTime < maxSafeInteger) :
    ∃ q ∈ l, findOldestLoop l (-1) maxSafeInteger = ((q.1 : Int), q.2.endTime) ∧
      ∀ r ∈ l, q.2.endTime ≤ r.2.endTime := by
  rcases findOldestLoop_mem l (-1) maxSafeInteger with heq | ⟨q, hq, heq⟩
  · exfalso
    rcases hex with ⟨q, hq, hlt⟩
    have hle := (findOldestLoop_time_le l (-1) maxSafeInteger).2 q hq
    rw [heq] at hle
    exact absurd hle (not_le.mpr hlt)
  · refine ⟨q, hq, heq, ?_⟩
    intro r hr
    have hle := (findOldestLoop_time_le l (-1) maxSafeInteger).2 r hr
    rw [heq] at hle
    exact hle

/-- When an entry with maximal `endTime` is appended to a nonempty list whose
entries are older, the eviction scan never picks the appended entry: it
returns an entry of the original list, minimal over the whole appended list. -/
theorem findOldest_fresh_append (old : List (Nat × CompletedSession))
    (p : Nat) (c : CompletedSession)
    (hne : old ≠ [])
    (hle : ∀ q ∈ old, q.2.endTime ≤ c.endTime)
    (hsafe : ∀ q ∈ old, q.2.endTime < maxSafeInteger) :
    ∃ q ∈ old, findOldestLoop (old ++ [(p, c)]) (-1) maxSafeInteger
        = ((q.1 : Int), q.2.endTime)
      ∧ ∀ r ∈ old ++ [(p, c)], q.2.endTime ≤ r.2.endTime := by
  have hex : ∃ q ∈ old, q.2.endTime < maxSafeInteger := by
    cases old with
    | nil => exact absurd rfl hne
    | cons q rest => exact ⟨q, List.mem_cons_self _ _, hsafe q (List.mem_cons_self _ _)⟩
  rcases findOldest_min old hex with ⟨q, hq, heq, hmin⟩
  have hfull : findOldestLoop (old ++ [(p, c)]) (-1) maxSafeInteger
      = ((q.1 : Int), q.2.endTime) := by
    rw [findOldestLoop_append, heq]
    simp only [findOldestLoop]
    rw [if_neg (not_lt.mpr (hle q hq))]
  refine ⟨q, hq, hfull, ?_⟩
  intro r hr
  rcases List.mem_append.mp hr with h1 | h2
  · exact hmin r h1
  · have : r = (p, c) := by simpa using h2
    rw [this]
    exact hle q hq

theorem handleData_preserves (cfg : Config) (st : ManagerState) (pe : PendingExec)
    (text : Str) :
    (handleData cfg st pe text).2.pid = pe.pid ∧
    (handleData cfg st pe text).1.completedSessions = st.completedSessions ∧
    (jsGet (handleData cfg st pe text).1.sessions pe.pid).isSome
      = (jsGet st.sessions pe.pid).isSome := by
  unfold handleData
  cases h : jsGet st.sessions pe.pid with
  | some s =>
    refine ⟨rfl, rfl, ?_⟩
    simp [h, jsGet_set_self]
  | none => exact ⟨rfl, rfl, by simp [h]⟩

theorem foldData_preserves (cfg : Config) (chunks : List Str) (st : ManagerState)
    (pe : PendingExec) :
    (chunks.foldl (fun acc text => handleData cfg acc.1 acc.2 text) (st, pe)).2.pid = pe.pid ∧
    (chunks.foldl (fun acc text =>
        handleData cfg acc.1 acc.2 text) (st, pe)).1.completedSessions
      = st.completedSessions ∧
    (jsGet (chunks.foldl (fun acc text =>
        handleData cfg acc.1 acc.2 text) (st, pe)).1.sessions pe.pid).isSome
      = (jsGet st.sessions pe.pid).isSome := by
  induction chunks generalizing st pe with
  | nil => exact ⟨rfl, rfl, rfl⟩
  | cons c rest ih =>
    have hstep := handleData_preserves cfg st pe c
    have hrec := ih (handleData cfg st pe c).1 (handleData cfg st pe c).2
    rw [List.foldl_cons]
    refine ⟨?_, ?_, ?_⟩
    · rw [show ((handleData cfg st pe c).1, (handleData cfg st pe c).2)
          = handleData cfg st pe c from rfl] at hrec
      rw [hrec.1, hstep.1]
    · rw [show ((handleData cfg st pe c).1, (handleData cfg st pe c).2)
          = handleData cfg st pe c from rfl] at hrec
      rw [hrec.2.1, hstep.2.1]
    · rw [show ((handleData cfg st pe c).1, (handleData cfg st pe c).2)
          = handleData cfg st pe c from rfl] at hrec
      rw [hstep.1] at hrec
      rw [hrec.2.2, hstep.2.2]

/-- C7: the exit-time insertion into the completed store preserves
`completedSessions.size ≤ MAX_COMPLETED_SESSIONS` (given the invariant held
before), and when the cap is exceeded, the evicted entry is one of minimal
`endTime` in the after-insertion store (FIFO by completion). -/
theorem completed_cap_preserved (cfg : Config) (st : ManagerState) (pe : PendingExec)
    (code : Option Int) (now : Int)
    (hpid : pe.pid ≠ 0)
    (hsize : st.completedSessions.length ≤ cfg.MAX_COMPLETED_SESSIONS)
    (hsafe : ∀ q ∈ st.completedSessions, q.2.endTime < maxSafeInteger)
    (hnow : now < maxSafeInteger) :
    ((handleExit cfg st pe code now).1.completedSessions.length
        ≤ cfg.MAX_COMPLETED_SESSIONS) ∧
    (cfg.MAX_COMPLETED_SESSIONS
        < (jsSet st.completedSessions pe.pid (finalizeRecord cfg st pe code now)).length →
      ∃ k s,
        (k, s) ∈ jsSet st.completedSessions pe.pid (finalizeRecord cfg st pe code now)
        ∧ (∀ q ∈ jsSet st.completedSessions pe.pid (finalizeRecord cfg st pe code now),
            s.endTime ≤ q.2.endTime)
        ∧ (handleExit cfg st pe code now).1.completedSessions
            = jsDelete
                (jsSet st.completedSessions pe.pid (finalizeRecord cfg st pe code now))
                k) := by
  set m1 := jsSet st.completedSessions pe.pid (finalizeRecord cfg st pe code now) with hm1
  have hred : (handleExit cfg st pe code now).1.completedSessions
      = if cfg.MAX_COMPLETED_SESSIONS < m1.length then
          (if (findOldestLoop m1 (-1) maxSafeInteger).1 ≠ -1
            then jsDelete m1 (findOldestLoop m1 (-1) maxSafeInteger).1.toNat else m1)
        else m1 := by
    unfold handleExit
    rw [if_pos hpid]
  by_cases hcap : cfg.MAX_COMPLETED_SESSIONS < m1.length
  · have hallsafe : ∀ q ∈ m1, q.2.endTime < maxSafeInteger := by
      intro q hq
      rcases jsMem_set hq with hold | hnew
      · exact hsafe q hold
      · rw [hnew]
        exact hnow
    have hne : m1 ≠ [] := by
      intro h0
      rw [h0] at hcap
      simp at hcap
    obtain ⟨q0, hq0⟩ : ∃ q, q ∈ m1 := List.exists_mem_of_ne_nil m1 hne
    rcases findOldest_min m1 ⟨q0, hq0, hallsafe q0 hq0⟩ with ⟨q, hq, heq, hmin⟩
    have hkey : ((q.1 : Int)) ≠ -1 := by omega
    have hres : (handleExit cfg st pe code now).1.completedSessions
        = jsDelete m1 q.1 := by
      rw [hred, if_pos hcap, heq]
      simp [hkey]
    have hmem : (q.1, q.2) ∈ m1 := by
      rw [Prod.mk.eta]
      exact hq
    have hsome : (jsGet m1 q.1).isSome := by
      rw [jsGet_isSome_eq_hasKey]
      exact jsHasKey_of_mem hmem
    have hlt := jsLength_delete_lt m1 q.1 hsome
    have hlen1 : m1.length ≤ st.completedSessions.length + 1 := jsLength_set_le _ _ _
    refine ⟨?_, ?_⟩
    · rw [hres]
      omega
    · intro _
      exact ⟨q.1, q.2, hmem, fun r hr => hmin r hr, hres⟩
  · refine ⟨?_, ?_⟩
    · rw [hred, if_neg hcap]
      omega
    · intro hx
      exact absurd hx hcap

/-- Witness for `completed_cap_preserved`: a cap of one forces the eviction of
the older completed session when a second one finishes. -/
theorem completed_cap_preserved_witness :
    ((5 : Nat) ≠ 0) ∧
    ((handleExit ⟨1, 1048576⟩
        ⟨[(5, ⟨5, [], false, 0⟩)], [(3, ⟨3, [], some 0, 0, 10⟩)]⟩
        ⟨5, "out".data⟩ (some 0) 50).1.completedSessions.length ≤ 1) :=
  ⟨by decide,
    (completed_cap_preserved ⟨1, 1048576⟩
      ⟨[(5, ⟨5, [], false, 0⟩)], [(3, ⟨3, [], some 0, 0, 10⟩)]⟩
      ⟨5, "out".data⟩ (some 0) 50 (by decide) (by decide) (by decide) (by decide)).1⟩

/-- After inserting a fresh maximal-`endTime` entry and running the cap
eviction, the inserted pid is still present in the completed store. -/
theorem completed_get_after_insert_evict (old : List (Nat × CompletedSession))
    (p : Nat) (c : CompletedSession) (MAX : Nat)
    (hmax1 : 1 ≤ MAX)
    (hcend : ∀ q ∈ old, q.2.endTime ≤ c.endTime)
    (hsafe : ∀ q ∈ old, q.2.endTime < maxSafeInteger)
    (hfresh : ∀ q ∈ old, q.1 ≠ p) :
    jsGet (if MAX < (old ++ [(p, c)]).length then
        (if (findOldestLoop (old ++ [(p, c)]) (-1) maxSafeInteger).1 ≠ -1
          then jsDelete (old ++ [(p, c)])
                (findOldestLoop (old ++ [(p, c)]) (-1) maxSafeInteger).1.toNat
          else (old ++ [(p, c)]))
      else (old ++ [(p, c)])) p = some c := by
  have hhk : jsHasKey old p = false := by
    rw [jsHasKey_eq_false_iff]
    exact hfresh
  have hgetp : jsGet (old ++ [(p, c)]) p = some c := by
    rw [← jsSet_eq_append old p c hhk]
    exact jsGet_set_self _ _ _
  by_cases hcap : MAX < (old ++ [(p, c)]).length
  · rw [if_pos hcap]
    have hne : old ≠ [] := by
      intro h0
      subst h0
      simp at hcap
      omega
    rcases findOldest_fresh_append old p c hne hcend hsafe with ⟨q, hq, heq, hmin⟩
    rw [heq]
    have hkey : ((q.1 : Int)) ≠ -1 := by omega
    rw [if_pos hkey]
    have htont : ((q.1 : Int)).toNat = q.1 := rfl
    rw [htont]
    have hqp : p ≠ q.1 := fun hh => (hfresh q hq) hh.symm
    rw [jsGet_delete_ne _ _ _ hqp]
    exact hgetp
  · rw [if_neg hcap]
    exact hgetp

/-- C3 amended: `executeCommand` either returns `pid = -1` (spawn failure: the
stores are untouched, `isBlocked` is false, and the output is the stable error
message), or the returned pid names a session reachable by `getNewOutput` —
stored in the active store when the initial wait timed out (`isBlocked`), and
in the completed store when the child exited first. -/
theorem execute_result_reachable (cfg : Config) (st : ManagerState)
    (pidOpt : Option Nat) (now : Int) (chunks : List Str) (ev : ResolutionEvent)
    (hreach : ∀ code exitNow, ev = ResolutionEvent.exited code exitNow →
        exitNow < maxSafeInteger ∧ 1 ≤ cfg.MAX_COMPLETED_SESSIONS ∧
        (∀ q ∈ st.completedSessions,
          q.2.endTime ≤ exitNow ∧ q.2.endTime < maxSafeInteger) ∧
        (∀ q ∈ st.completedSessions, some q.1 ≠ pidOpt)) :
    ((executeCommandRun cfg st pidOpt now chunks ev).2.pid = -1 →
      (executeCommandRun cfg st pidOpt now chunks ev).1 = st ∧
      (executeCommandRun cfg st pidOpt now chunks ev).2.isBlocked = false ∧
      (executeCommandRun cfg st pidOpt now chunks ev).2.output
        = "Error: Failed to get process ID. The command could not be executed.".data) ∧
    ((executeCommandRun cfg st pidOpt now chunks ev).2.pid ≠ -1 →
      (getNewOutput (executeCommandRun cfg st pidOpt now chunks ev).1
          (executeCommandRun cfg st pidOpt now chunks ev).2.pid.toNat).1 ≠ none ∧
      ((executeCommandRun cfg st pidOpt now chunks ev).2.isBlocked = true →
        (jsGet (executeCommandRun cfg st pidOpt now chunks ev).1.sessions
            (executeCommandRun cfg st pidOpt now chunks ev).2.pid.toNat).isSome = true) ∧
      ((executeCommandRun cfg st pidOpt now chunks ev).2.isBlocked = false →
        (jsGet (executeCommandRun cfg st pidOpt now chunks ev).1.completedSessions
            (executeCommandRun cfg st pidOpt now chunks ev).2.pid.toNat).isSome = true)) := by
  cases pidOpt with
  | none =>
    refine ⟨fun _ => ⟨rfl, rfl, rfl⟩, fun h => absurd rfl h⟩
  | some p =>
    by_cases hp0 : p = 0
    · subst hp0
      refine ⟨fun _ => ⟨rfl, rfl, rfl⟩, fun h => absurd rfl h⟩
    · have hrunEq : executeCommandRun cfg st (some p) now chunks ev
          = runPending cfg (createSession st p now) ⟨p, []⟩ chunks ev := by
        simp [executeCommandRun, hp0]
      rw [hrunEq]
      set st1 := createSession st p now with hst1
      set folded := chunks.foldl (fun acc text => handleData cfg acc.1 acc.2 text)
        (st1, (⟨p, []⟩ : PendingExec)) with hfolded
      have hfold := foldData_preserves cfg chunks st1 ⟨p, []⟩
      rw [← hfolded] at hfold
      have hst1get : jsGet st1.sessions p = some ⟨p, [], false, now⟩ :=
        jsGet_set_self _ _ _
      have hactive : (jsGet folded.1.sessions p).isSome = true := by
        rw [hfold.2.2, hst1get]
        rfl
      obtain ⟨s, hs⟩ : ∃ s, jsGet folded.1.sessions p = some s := by
        cases hx : jsGet folded.1.sessions p with
        | some s => exact ⟨s, rfl⟩
        | none => rw [hx] at hactive; simp at hactive
      have hs' : jsGet folded.1.sessions folded.2.pid = some s := by
        rw [hfold.1]
        exact hs
      cases ev with
      | timeout =>
        have hrp : runPending cfg st1 ⟨p, []⟩ chunks ResolutionEvent.timeout
            = handleTimeout folded.1 folded.2 := rfl
        have hres2 : (handleTimeout folded.1 folded.2).2
            = { pid := (folded.2.pid : Int), output := folded.2.output,
                isBlocked := true } := by
          unfold handleTimeout
          rw [hs']
        have hto1 : (handleTimeout folded.1 folded.2).1.sessions
            = jsSet folded.1.sessions folded.2.pid ({ s with isBlocked := true }) := by
          unfold handleTimeout
          rw [hs']
        rw [hrp]
        have hpid : (handleTimeout folded.1 folded.2).2.pid = (p : Int) := by
          rw [hres2, hfold.1]
        have hblocked : (handleTimeout folded.1 folded.2).2.isBlocked = true := by
          rw [hres2]
        have hgetact : jsGet (handleTimeout folded.1 folded.2).1.sessions p
            = some ({ s with isBlocked := true }) := by
          rw [hto1, hfold.1]
          exact jsGet_set_self _ _ _
        constructor
        · intro h
          rw [hpid] at h
          omega
        · intro _
          have htonat : (handleTimeout folded.1 folded.2).2.pid.toNat = p := by
            rw [hpid]
            rfl
          rw [htonat]
          refine ⟨?_, ?_, ?_⟩
          · unfold getNewOutput
            rw [hgetact]
            simp
          · intro _
            rw [hgetact]
            rfl
          · intro h
            rw [hblocked] at h
            cases h
      | exited code exitNow =>
        obtain ⟨hsafeNow, hmax1, hold, hfresh⟩ := hreach code exitNow rfl
        have hrp : runPending cfg st1 ⟨p, []⟩ chunks (ResolutionEvent.exited code exitNow)
            = handleExit cfg folded.1 folded.2 code exitNow := rfl
        rw [hrp]
        have hpidne : folded.2.pid ≠ 0 := by
          rw [hfold.1]
          exact hp0
        have hcomp : folded.1.completedSessions = st.completedSessions := hfold.2.1
        have hres2 : (handleExit cfg folded.1 folded.2 code exitNow).2
            = { pid := (folded.2.pid : Int), output := folded.2.output,
                isBlocked := false } := rfl
        have hpid : (handleExit cfg folded.1 folded.2 code exitNow).2.pid = (p : Int) := by
          rw [hres2, hfold.1]
        have hfreshp : jsHasKey st.completedSessions p = false := by
          rw [jsHasKey_eq_false_iff]
          intro q hq hqp
          exact (hfresh q hq) (by rw [hqp])
        have hm1 : jsSet folded.1.completedSessions folded.2.pid
              (finalizeRecord cfg folded.1 folded.2 code exitNow)
            = st.completedSessions
                ++ [(p, finalizeRecord cfg folded.1 folded.2 code exitNow)] := by
          rw [hfold.1, hcomp, jsSet_eq_append _ _ _ hfreshp]
        have hredS : (handleExit cfg folded.1 folded.2 code exitNow).1.sessions
            = jsDelete folded.1.sessions folded.2.pid := by
          unfold handleExit
          rw [if_pos hpidne]
        have hredC : (handleExit cfg folded.1 folded.2 code exitNow).1.completedSessions
            = if cfg.MAX_COMPLETED_SESSIONS
                  < (st.completedSessions
                      ++ [(p, finalizeRecord cfg folded.1 folded.2 code exitNow)]).length
              then
                (if (findOldestLoop
                      (st.completedSessions
                        ++ [(p, finalizeRecord cfg folded.1 folded.2 code exitNow)])
                      (-1) maxSafeInteger).1 ≠ -1
                  then jsDelete
                        (st.completedSessions
                          ++ [(p, finalizeRecord cfg folded.1 folded.2 code exitNow)])
                        (findOldestLoop
                          (st.completedSessions
                            ++ [(p, finalizeRecord cfg folded.1 folded.2 code exitNow)])
                          (-1) maxSafeInteger).1.toNat
                  else (st.completedSessions
                        ++ [(p, finalizeRecord cfg folded.1 folded.2 code exitNow)]))
              else (st.completedSessions
                    ++ [(p, finalizeRecord cfg folded.1 folded.2 code exitNow)]) := by
          unfold handleExit
          rw [if_pos hpidne, hm1]
        have hcend : (finalizeRecord cfg folded.1 folded.2 code exitNow).endTime
            = exitNow := rfl
        have hcget : jsGet (handleExit cfg folded.1 folded.2 code exitNow).1.completedSessions p
            = some (finalizeRecord cfg folded.1 folded.2 code exitNow) := by
          rw [hredC]
          exact completed_get_after_insert_evict st.completedSessions p
            (finalizeRecord cfg folded.1 folded.2 code exitNow)
            cfg.MAX_COMPLETED_SESSIONS hmax1
            (fun q hq => by rw [hcend]; exact (hold q hq).1)
            (fun q hq => (hold q hq).2)
            (fun q hq hqp => (hfresh q hq) (by rw [hqp]))
        have hsessnone : jsGet (handleExit cfg folded.1 folded.2 code exitNow).1.sessions p
            = none := by
          rw [hredS, hfold.1]
          exact jsGet_delete_self _ _
        constructor
        · intro h
          rw [hpid] at h
          omega
        · intro _
          have htonat : (handleExit cfg folded.1 folded.2 code exitNow).2.pid.toNat = p := by
            rw [hpid]
            rfl
          rw [htonat]
          refine ⟨?_, ?_, ?_⟩
          · unfold getNewOutput
            rw [hsessnone, hcget]
            simp
          · intro h
            rw [hres2] at h
            cases h
          · intro _
            rw [hcget]
            rfl

/-- Witness for `execute_result_reachable`: a spawned pid 5 exits with code 0
after emitting one chunk; the completed session remains reachable. -/
theorem execute_result_reachable_witness :
    (∀ code exitNow,
        (ResolutionEvent.exited (some 0) 100 : ResolutionEvent)
          = ResolutionEvent.exited code exitNow →
        exitNow < maxSafeInteger ∧ 1 ≤ defaultConfig.MAX_COMPLETED_SESSIONS ∧
        (∀ q ∈ initialManagerState.completedSessions,
          q.2.endTime ≤ exitNow ∧ q.2.endTime < maxSafeInteger) ∧
        (∀ q ∈ initialManagerState.completedSessions, some q.1 ≠ some 5)) ∧
    (getNewOutput (executeCommandRun defaultConfig initialManagerState (some 5) 0
        ["x".data] (ResolutionEvent.exited (some 0) 100)).1
      (executeCommandRun defaultConfig initialManagerState (some 5) 0
        ["x".data] (ResolutionEvent.exited (some 0) 100)).2.pid.toNat).1 ≠ none := by
  have hreach : ∀ code exitNow,
      (ResolutionEvent.exited (some 0) 100 : ResolutionEvent)
        = ResolutionEvent.exited code exitNow →
      exitNow < maxSafeInteger ∧ 1 ≤ defaultConfig.MAX_COMPLETED_SESSIONS ∧
      (∀ q ∈ initialManagerState.completedSessions,
        q.2.endTime ≤ exitNow ∧ q.2.endTime < maxSafeInteger) ∧
      (∀ q ∈ initialManagerState.completedSessions, some q.1 ≠ some 5) := by
    intro code exitNow heq
    cases heq
    refine ⟨by decide, by decide, ?_, ?_⟩ <;> intro q hq <;> simp [initialManagerState] at hq
  exact ⟨hreach,
    ((execute_result_reachable defaultConfig initialManagerState (some 5) 0
      ["x".data] (ResolutionEvent.exited (some 0) 100) hreach).2 (by decide)).1⟩

/-- C3 counterexample: when the child exits before the initial-wait timer, the
returned pid (here 5) is not `-1`, yet no session with that pid exists in the
active store — the session lives in the completed store, where `getNewOutput`
still reaches it. -/
theorem execute_exit_not_in_active_cex :
    (executeCommandRun defaultConfig initialManagerState (some 5) 0 []
        (ResolutionEvent.exited (some 0) 100)).2.pid = 5 ∧
    jsGet (executeCommandRun defaultConfig initialManagerState (some 5) 0 []
        (ResolutionEvent.exited (some 0) 100)).1.sessions 5 = none ∧
    (getNewOutput (executeCommandRun defaultConfig initialManagerState (some 5) 0 []
        (ResolutionEvent.exited (some 0) 100)).1 5).1 ≠ none := by
  refine ⟨by decide, by decide, by decide⟩

end ClaudeMcp
